import Mathlib

/- Verification development for the Rubik's-Cube engine of this repository:
   the state and move engine (src/logic/Cube.js), the scramble generator
   (src/logic/Scrambler.js) and the JSON-import validation (JsonImport
   component).  Sticker grids are embedded as lists of lists of strings,
   mirroring the JavaScript arrays of one-letter color strings; a move that
   throws a TypeError in JavaScript is modelled by the move function
   returning none. -/

/-- The JavaScript value undefined, produced by reading an array out of
range; it never appears in a well-formed grid. -/
def undef : String := "undefined"

/-- The apostrophe character used as the prime (counter-clockwise) marker in
move notation. -/
def primeChar : Char := Char.ofNat 39

/-- Append the prime marker to a face name, building strings such as the
counter-clockwise front move from the plain front move. -/
def pr (s : String) : String := s.push primeChar

/-- moveName.includes(the prime marker), from Cube.move. -/
def containsPrime (s : String) : Bool := s.data.contains primeChar

/-- Drop the first apostrophe of a character list, leaving the rest
unchanged: the behavior of String.replace with a one-character pattern. -/
def dropFirstPrime : List Char → List Char
  | [] => []
  | ch :: cs => if ch = primeChar then cs else ch :: dropFirstPrime cs

/-- moveName.replace(prime, empty), from Cube.move: removes only the first
apostrophe, yielding the face part of a move string. -/
def stripPrime (s : String) : String := String.mk (dropFirstPrime s.data)

/-- Read entry (r, c) of a grid, with the JavaScript undefined value as the
result of an out-of-range read. -/
def entryD (m : List (List String)) (r c : Nat) : String := (m.getD r []).getD c undef

/-- A grid is well formed at size n when it has n rows of n entries each:
the shape every face of an untampered cube has. -/
def WfGrid (n : Nat) (m : List (List String)) : Prop :=
  m.length = n ∧ ∀ row ∈ m, row.length = n

instance (n : Nat) (m : List (List String)) : Decidable (WfGrid n m) := by
  unfold WfGrid; infer_instance

/-- Cube.rotateFaceClockwise: builds a fresh matrix with
newMatrix[j][size-1-i] = faceMatrix[i][j]; solving for the target indices,
the new entry at (r, c) is the old entry at (size-1-c, r). -/
def rotCW (n : Nat) (m : List (List String)) : List (List String) :=
  (List.range n).map fun r => (List.range n).map fun c => entryD m (n - 1 - c) r

/-- Cube.rotateFaceCounterClockwise: newMatrix[size-1-j][i] = faceMatrix[i][j],
so the new entry at (r, c) is the old entry at (c, size-1-r). -/
def rotCCW (n : Nat) (m : List (List String)) : List (List String) :=
  (List.range n).map fun r => (List.range n).map fun c => entryD m c (n - 1 - r)

/-- Overwrite column c0 of the first n rows of a grid with the values g 0,
.., g (n-1): the effect of the for-loops in moveFFaceStickers that assign
faces.X[i][c0] for i below size (on a well-formed grid of n rows). -/
def colSet (m : List (List String)) (c0 : Nat) (g : Nat → String) (n : Nat) :
    List (List String) :=
  (List.range n).map fun i => (m.getD i []).set c0 (g i)

/-- Build the row of values g 0, .., g (n-1): the effect of a for-loop that
assigns every entry of one row. -/
def rowOf (n : Nat) (g : Nat → String) : List String := (List.range n).map g

/-- Cube.moveFFaceStickers(true): the clockwise boundary cycle of the front
face.  It begins with const temp = spread of this.faces.U[2]: the row index
2 is hardcoded, so when U has no row 2 (size 2) the spread of undefined
throws a TypeError, modelled as none; for sizes above 3 it copies an inner
row instead of the bottom row.  Then, reading only faces not yet written:
U[size-1][i] = L[size-1-i][size-1], L[i][size-1] = D[0][i],
D[0][i] = R[size-1-i][0], R[i][0] = temp[i].
The result tuple is the new (U, L, D, R). -/
def moveFcw (n : Nat) (u l d r : List (List String)) :
    Option (List (List String) × List (List String) × List (List String) × List (List String)) :=
  match u[2]? with
  | none => none
  | some temp =>
    some (u.set (n - 1) (rowOf n fun i => entryD l (n - 1 - i) (n - 1)),
          colSet l (n - 1) (fun i => entryD d 0 i) n,
          d.set 0 (rowOf n fun i => entryD r (n - 1 - i) 0),
          colSet r 0 (fun i => temp.getD i undef) n)

/-- Cube.moveFFaceStickers(false): the counter-clockwise boundary cycle.
const temp = spread of this.faces.U[size-1] (throws when that row is
undefined, which on a well-formed cube only happens at size 0); then
U[size-1][i] = R[i][0], R[i][0] = D[0][size-1-i], D[0][i] = L[i][size-1],
L[size-1-i][size-1] = temp[i] (so row j of L receives temp[size-1-j]).
The result tuple is the new (U, L, D, R). -/
def moveFccw (n : Nat) (u l d r : List (List String)) :
    Option (List (List String) × List (List String) × List (List String) × List (List String)) :=
  match u[n - 1]? with
  | none => none
  | some temp =>
    some (u.set (n - 1) (rowOf n fun i => entryD r i 0),
          colSet l (n - 1) (fun j => temp.getD (n - 1 - j) undef) n,
          d.set 0 (rowOf n fun i => entryD l i (n - 1)),
          colSet r 0 (fun i => entryD d 0 (n - 1 - i)) n)

/-- The cube state: a size and the six face grids, in the declaration order
U, D, L, R, F, B of Cube.initializeFaces. -/
structure Cube where
  size : Nat
  U : List (List String)
  D : List (List String)
  L : List (List String)
  R : List (List String)
  F : List (List String)
  B : List (List String)
deriving DecidableEq, Repr

/-- All six faces are well formed size x size grids. -/
def Cube.Wf (c : Cube) : Prop :=
  WfGrid c.size c.U ∧ WfGrid c.size c.D ∧ WfGrid c.size c.L ∧
  WfGrid c.size c.R ∧ WfGrid c.size c.F ∧ WfGrid c.size c.B

instance (c : Cube) : Decidable c.Wf := by unfold Cube.Wf; infer_instance

/-- An n x n grid filled with one color, as produced by
Array(size).fill().map(() => Array(size).fill(color)). -/
def fullGrid (n : Nat) (color : String) : List (List String) :=
  List.replicate n (List.replicate n color)

/-- new Cube(size, initializeAsBlank), via Cube.initializeFaces: blank fills
every face with W for manual coloring; otherwise each face gets its default
solved color (U white, D yellow, L green, R blue, F red, B orange). -/
def Cube.new (n : Nat) (initializeAsBlank : Bool) : Cube :=
  if initializeAsBlank then
    { size := n, U := fullGrid n "W", D := fullGrid n "W", L := fullGrid n "W",
      R := fullGrid n "W", F := fullGrid n "W", B := fullGrid n "W" }
  else
    { size := n, U := fullGrid n "W", D := fullGrid n "Y", L := fullGrid n "G",
      R := fullGrid n "B", F := fullGrid n "R", B := fullGrid n "O" }

/-- One face of Cube.isSolved: reads the corner color faces[face][0][0] and
compares every sticker of the face with it. -/
def gridUniform (n : Nat) (m : List (List String)) : Bool :=
  (List.range n).all fun i => (List.range n).all fun j => entryD m i j == entryD m 0 0

/-- Cube.isSolved: every face is internally uniform in color. -/
def Cube.isSolved (c : Cube) : Bool :=
  gridUniform c.size c.U && gridUniform c.size c.D && gridUniform c.size c.L &&
  gridUniform c.size c.R && gridUniform c.size c.F && gridUniform c.size c.B

/-- Cube.move: parses isPrime = moveName.includes(prime) and
face = moveName.replace(prime, empty), then switches on the face.  The F
case rotates the front grid and runs the front boundary cycle (none when
that cycle throws); the B, U, D, L, R cases rotate their own grid and call
the corresponding moveXFaceStickers stub, which is an empty function; a face
matching no case falls through the switch and the state is returned
unchanged. -/
def Cube.move (c : Cube) (moveName : String) : Option Cube :=
  let isP := containsPrime moveName
  let face := stripPrime moveName
  if face = "F" then
    if isP then
      match moveFccw c.size c.U c.L c.D c.R with
      | none => none
      | some (u, l, d, r) =>
        some { c with F := rotCCW c.size c.F, U := u, L := l, D := d, R := r }
    else
      match moveFcw c.size c.U c.L c.D c.R with
      | none => none
      | some (u, l, d, r) =>
        some { c with F := rotCW c.size c.F, U := u, L := l, D := d, R := r }
  else if face = "B" then
    some { c with B := if isP then rotCCW c.size c.B else rotCW c.size c.B }
  else if face = "U" then
    some { c with U := if isP then rotCCW c.size c.U else rotCW c.size c.U }
  else if face = "D" then
    some { c with D := if isP then rotCCW c.size c.D else rotCW c.size c.D }
  else if face = "L" then
    some { c with L := if isP then rotCCW c.size c.L else rotCW c.size c.L }
  else if face = "R" then
    some { c with R := if isP then rotCCW c.size c.R else rotCW c.size c.R }
  else
    some c

/-- Apply a list of moves in order, propagating a thrown exception (none). -/
def moveSeq (c : Cube) (ms : List String) : Option Cube :=
  ms.foldl (fun o m => o.bind fun x => x.move m) (some c)

/-- The solved cube of a given size. -/
def solvedCube (n : Nat) : Cube := Cube.new n false


/-- Face identifiers, as used for the keys of the faces object. -/
inductive FaceId where
  | U | D | L | R | F | B
deriving DecidableEq, Repr

/-- The grid of one face of a cube. -/
def Cube.faceGrid (c : Cube) : FaceId → List (List String)
  | .U => c.U
  | .D => c.D
  | .L => c.L
  | .R => c.R
  | .F => c.F
  | .B => c.B

/-- The one-letter string naming a face in move notation. -/
def faceName : FaceId → String
  | .U => "U"
  | .D => "D"
  | .L => "L"
  | .R => "R"
  | .F => "F"
  | .B => "B"

/-- The faces object of a parsed JSON cube configuration: each key may be
missing or hold a non-array value (none) or hold a grid. -/
structure RawFaces where
  U : Option (List (List String))
  D : Option (List (List String))
  L : Option (List (List String))
  R : Option (List (List String))
  F : Option (List (List String))
  B : Option (List (List String))
deriving DecidableEq, Repr

/-- Look up one face key of the faces object. -/
def RawFaces.get (fs : RawFaces) : FaceId → Option (List (List String))
  | .U => fs.U
  | .D => fs.D
  | .L => fs.L
  | .R => fs.R
  | .F => fs.F
  | .B => fs.B

/-- A parsed JSON document for import: the faces property may be missing or
not an object (none). -/
structure CubeData where
  faces : Option RawFaces
deriving DecidableEq, Repr

/-- The six canonical color codes accepted by validateCubeData. -/
def validColors : List String := ["W", "Y", "G", "B", "R", "O"]

/-- The required faces iterated by validateCubeData. -/
def requiredFaces : List FaceId := [.U, .D, .L, .R, .F, .B]

/-- The per-face checks of validateCubeData: the face grid has exactly
cubeSize rows, each row is an array of cubeSize entries, and every entry is
one of the six valid colors. -/
def validFaceGrid (cubeSize : Nat) (g : List (List String)) : Bool :=
  g.length == cubeSize &&
    g.all fun row => row.length == cubeSize && row.all fun color => validColors.contains color

/-- validateCubeData from the JsonImport component: false when the faces
property is missing, when a required face is missing or not an array, or
when any dimension or color check fails. -/
def validateCubeData (cubeSize : Nat) (d : CubeData) : Bool :=
  match d.faces with
  | none => false
  | some fs =>
    requiredFaces.all fun f =>
      match fs.get f with
      | none => false
      | some g => validFaceGrid cubeSize g

/-- JsonImport.handleImport: JSON.parse may throw (input none); a parsed
document is passed to onImport only when validateCubeData accepts it, and
then unchanged; otherwise an error message is set and nothing is imported.
The result is the argument given to onImport, or none when the import was
rejected. -/
def handleImport (cubeSize : Nat) (parsed : Option CubeData) : Option CubeData :=
  match parsed with
  | none => none
  | some d => if validateCubeData cubeSize d then some d else none

/-- Reading a mapped range list at an in-range index gives the generator. -/
theorem mapRange_getD {α : Type} (n : Nat) (f : Nat → α) (r : Nat) (d : α) (h : r < n) :
    ((List.range n).map f).getD r d = f r := by
  rw [List.getD_eq_getElem _ _ (by simpa using h)]
  simp

/-- Reading a replicated list at an in-range index gives the element. -/
theorem replicate_getD {α : Type} (n : Nat) (a : α) (r : Nat) (d : α) (h : r < n) :
    (List.replicate n a).getD r d = a := by
  rw [List.getD_eq_getElem _ _ (by simpa using h)]
  simp

/-- Two lists of the same length agreeing on all in-range reads are equal. -/
theorem list_ext_getD {α : Type} (d : α) {n : Nat} {l1 l2 : List α}
    (h1 : l1.length = n) (h2 : l2.length = n)
    (h : ∀ i, i < n → l1.getD i d = l2.getD i d) : l1 = l2 := by
  apply List.ext_getElem?
  intro i
  by_cases hi : i < n
  · rw [List.getElem?_eq_getElem (h1 ▸ hi), List.getElem?_eq_getElem (h2 ▸ hi)]
    rw [← List.getD_eq_getElem l1 d (h1 ▸ hi), ← List.getD_eq_getElem l2 d (h2 ▸ hi)]
    rw [h i hi]
  · rw [List.getElem?_eq_none (by omega), List.getElem?_eq_none (by omega)]

/-- Every row of a well-formed grid has length n. -/
theorem wf_row_length {n : Nat} {m : List (List String)} (h : WfGrid n m) {r : Nat}
    (hr : r < n) : (m.getD r []).length = n := by
  obtain ⟨hl, hrow⟩ := h
  rw [List.getD_eq_getElem m [] (hl ▸ hr)]
  exact hrow _ (List.getElem_mem _)

/-- Well-formed grids agreeing on all in-range entries are equal. -/
theorem grid_ext {n : Nat} {m1 m2 : List (List String)} (h1 : WfGrid n m1) (h2 : WfGrid n m2)
    (h : ∀ r, r < n → ∀ c, c < n → entryD m1 r c = entryD m2 r c) : m1 = m2 := by
  apply list_ext_getD ([] : List String) h1.1 h2.1
  intro r hr
  apply list_ext_getD undef (wf_row_length h1 hr) (wf_row_length h2 hr)
  intro c hc
  exact h r hr c hc

/-- Every in-range sticker of a one-color grid has that color. -/
theorem entryD_fullGrid (n : Nat) (color : String) (i j : Nat) (hi : i < n) (hj : j < n) :
    entryD (fullGrid n color) i j = color := by
  unfold entryD fullGrid
  rw [replicate_getD _ _ _ _ hi, replicate_getD _ _ _ _ hj]

/-- A one-color grid passes the uniformity check of isSolved. -/
theorem gridUniform_fullGrid (n : Nat) (color : String) :
    gridUniform n (fullGrid n color) = true := by
  simp only [gridUniform, List.all_eq_true, List.mem_range, beq_iff_eq]
  intro i hi j hj
  have hn : 0 < n := by omega
  rw [entryD_fullGrid n color i j hi hj, entryD_fullGrid n color 0 0 hn hn]

/-- C10: a cube constructed blank (new Cube(size, true)) has every sticker of
all six faces set to W, and isSolved() returns true on it before any user
coloring. -/
theorem blank_cube_all_white_and_solved (n : Nat) (h : 0 < n) :
    (∀ f : FaceId, ∀ i j : Nat, i < n → j < n →
      entryD ((Cube.new n true).faceGrid f) i j = "W") ∧
    (Cube.new n true).isSolved = true := by
  constructor
  · intro f i j hi hj
    cases f <;> exact entryD_fullGrid n "W" i j hi hj
  · have hu := gridUniform_fullGrid n "W"
    simp [Cube.isSolved, Cube.new, hu]

/-- Witness for C10 at size 3. -/
theorem blank_cube_all_white_and_solved_witness :
    0 < 3 ∧ ((∀ f : FaceId, ∀ i j : Nat, i < 3 → j < 3 →
      entryD ((Cube.new 3 true).faceGrid f) i j = "W") ∧
      (Cube.new 3 true).isSolved = true) :=
  ⟨by decide, blank_cube_all_white_and_solved 3 (by decide)⟩

/-- C7 (amended): a move string whose face part matches none of the six
cases of the switch in Cube.move leaves the state unchanged and reports no
error: the switch has no default branch. -/
theorem unknown_face_move_is_silent_noop (c : Cube) (m : String)
    (h : stripPrime m ∉ (["F", "B", "U", "D", "L", "R"] : List String)) :
    c.move m = some c := by
  simp only [List.mem_cons, List.not_mem_nil, or_false, not_or] at h
  obtain ⟨h1, h2, h3, h4, h5, h6⟩ := h
  simp [Cube.move, h1, h2, h3, h4, h5, h6]

/-- Witness for the amended C7: the face M is unknown and the move is a
silent no-op. -/
theorem unknown_face_move_is_silent_noop_witness :
    stripPrime "M" ∉ (["F", "B", "U", "D", "L", "R"] : List String) ∧
    (solvedCube 3).move "M" = some (solvedCube 3) :=
  ⟨by decide, unknown_face_move_is_silent_noop (solvedCube 3) "M" (by decide)⟩

/-- Counterexample to C7 as stated: moving an unknown face X on the solved
3x3 cube returns normally with the state unchanged, rather than failing
with an InvalidMove error (no such error exists in Cube.move). -/
theorem unknown_face_error_counterexample :
    (solvedCube 3).move "X" = some (solvedCube 3) := by decide

/-- C3 (code bug): the half-turn string F2 matches no case of the switch in
Cube.move and is silently ignored, so it does not equal two quarter-CW F
turns: on the solved 3x3 cube, move(F2) leaves the state unchanged while two
F moves change it. -/
theorem half_turn_string_is_ignored :
    (solvedCube 3).move "F2" = some (solvedCube 3) ∧
    moveSeq (solvedCube 3) ["F", "F"] ≠ some (solvedCube 3) := by decide

/-- C9: a JSON import is applied only when it parses and passes
validateCubeData, and then the imported configuration is exactly the parsed
one; on any parse or validation failure nothing is imported.  The second
part characterizes validation: all six faces present as size x size arrays
containing only the six canonical color codes. -/
theorem json_import_only_validated (n : Nat) (input : Option CubeData) (d : CubeData) :
    (handleImport n input = some d ↔ input = some d ∧ validateCubeData n d = true) ∧
    (validateCubeData n d = true ↔
      ∃ fs, d.faces = some fs ∧ ∀ f : FaceId, ∃ g, fs.get f = some g ∧
        g.length = n ∧ ∀ row ∈ g, row.length = n ∧
          ∀ color ∈ row, color ∈ validColors) := by
  constructor
  · cases input with
    | none => simp [handleImport]
    | some d' =>
      simp only [handleImport]
      by_cases hv : validateCubeData n d' = true
      · simp only [hv, if_true, Option.some.injEq]
        constructor
        · rintro rfl
          exact ⟨rfl, hv⟩
        · rintro ⟨he, _⟩
          exact he
      · simp only [hv, if_false, Bool.false_eq_true]
        constructor
        · rintro h
          cases h
        · rintro ⟨he, hval⟩
          cases he
          exact absurd hval hv
  · unfold validateCubeData
    cases hf : d.faces with
    | none => simp
    | some fs =>
      constructor
      · intro hall
        refine ⟨fs, rfl, ?_⟩
        intro f
        have hmem : f ∈ requiredFaces := by cases f <;> simp [requiredFaces]
        have hone := List.all_eq_true.mp hall f hmem
        cases hg : fs.get f with
        | none => rw [hg] at hone; cases hone
        | some g =>
          rw [hg] at hone
          simp only [validFaceGrid, Bool.and_eq_true, beq_iff_eq, List.all_eq_true] at hone
          refine ⟨g, rfl, hone.1, ?_⟩
          intro row hrow
          have h2 := hone.2 row hrow
          simp only [Bool.and_eq_true, beq_iff_eq, List.all_eq_true] at h2
          refine ⟨h2.1, ?_⟩
          intro color hc
          have h3 := h2.2 color hc
          simpa using h3
      · rintro ⟨fs', hfs, hforall⟩
        cases hfs
        apply List.all_eq_true.mpr
        intro f _
        obtain ⟨g, hg, hlen, hrows⟩ := hforall f
        rw [hg]
        simp only [validFaceGrid, Bool.and_eq_true, beq_iff_eq, List.all_eq_true]
        refine ⟨hlen, ?_⟩
        intro row hrow
        refine ⟨(hrows row hrow).1, ?_⟩
        intro color hc
        have := (hrows row hrow).2 color hc
        simpa using this

/-- C5: a move of any of the five faces B, U, D, L, R, in either direction,
changes only that face's own grid: the adjacent-face sticker permutation is
an empty stub for these faces, so the other five grids are returned
unchanged. -/
theorem non_front_move_touches_only_own_face (c : Cube) (f : FaceId)
    (hf : f ∈ [FaceId.B, FaceId.U, FaceId.D, FaceId.L, FaceId.R]) (isP : Bool) :
    ∃ c', c.move (if isP then pr (faceName f) else faceName f) = some c' ∧
      ∀ g : FaceId, g ≠ f → c'.faceGrid g = c.faceGrid g := by
  simp only [List.mem_cons, List.not_mem_nil, or_false] at hf
  rcases hf with rfl | rfl | rfl | rfl | rfl <;> cases isP <;>
    exact ⟨_, rfl, by intro g hg; cases g <;> first | rfl | exact absurd rfl hg⟩

/-- Witness for C5: a plain B move on the solved 3x3 cube leaves the other
five faces unchanged. -/
theorem non_front_move_touches_only_own_face_witness :
    FaceId.B ∈ [FaceId.B, FaceId.U, FaceId.D, FaceId.L, FaceId.R] ∧
    ∃ c', (solvedCube 3).move (if false then pr (faceName .B) else faceName .B) = some c' ∧
      ∀ g : FaceId, g ≠ .B → c'.faceGrid g = (solvedCube 3).faceGrid g :=
  ⟨by decide, non_front_move_touches_only_own_face (solvedCube 3) .B (by decide) false⟩

/-- The clockwise rotation of any grid is well formed. -/
theorem wf_rotCW (n : Nat) (m : List (List String)) : WfGrid n (rotCW n m) := by
  constructor
  · simp [rotCW]
  · intro row hrow
    simp only [rotCW, List.mem_map, List.mem_range] at hrow
    obtain ⟨r, _, rfl⟩ := hrow
    simp

/-- The counter-clockwise rotation of any grid is well formed. -/
theorem wf_rotCCW (n : Nat) (m : List (List String)) : WfGrid n (rotCCW n m) := by
  constructor
  · simp [rotCCW]
  · intro row hrow
    simp only [rotCCW, List.mem_map, List.mem_range] at hrow
    obtain ⟨r, _, rfl⟩ := hrow
    simp

/-- In-range entry of the clockwise rotation. -/
theorem entryD_rotCW {n r c : Nat} (m : List (List String)) (hr : r < n) (hc : c < n) :
    entryD (rotCW n m) r c = entryD m (n - 1 - c) r := by
  unfold rotCW entryD
  rw [mapRange_getD _ _ _ _ hr, mapRange_getD _ _ _ _ hc]

/-- In-range entry of the counter-clockwise rotation. -/
theorem entryD_rotCCW {n r c : Nat} (m : List (List String)) (hr : r < n) (hc : c < n) :
    entryD (rotCCW n m) r c = entryD m c (n - 1 - r) := by
  unfold rotCCW entryD
  rw [mapRange_getD _ _ _ _ hr, mapRange_getD _ _ _ _ hc]

/-- A counter-clockwise rotation undoes a clockwise rotation on a
well-formed grid. -/
theorem rotCCW_rotCW {n : Nat} {m : List (List String)} (h : WfGrid n m) :
    rotCCW n (rotCW n m) = m := by
  apply grid_ext (wf_rotCCW n _) h
  intro r hr c hc
  rw [entryD_rotCCW _ hr hc, entryD_rotCW _ hc (by omega)]
  congr 1
  omega

/-- A clockwise rotation undoes a counter-clockwise rotation on a
well-formed grid. -/
theorem rotCW_rotCCW {n : Nat} {m : List (List String)} (h : WfGrid n m) :
    rotCW n (rotCCW n m) = m := by
  apply grid_ext (wf_rotCW n _) h
  intro r hr c hc
  rw [entryD_rotCW _ hr hc, entryD_rotCCW _ (by omega) hr]
  congr 1
  omega

/-- Four clockwise rotations of a well-formed grid give back the grid. -/
theorem rotCW_four {n : Nat} {m : List (List String)} (h : WfGrid n m) :
    rotCW n (rotCW n (rotCW n (rotCW n m))) = m := by
  apply grid_ext (wf_rotCW n _) h
  intro r hr c hc
  rw [entryD_rotCW _ hr hc, entryD_rotCW _ (by omega) hr,
    entryD_rotCW _ (by omega) (by omega), entryD_rotCW _ (by omega) (by omega)]
  congr 1 <;> omega

/-- Evaluation of Cube.move at the plain F string. -/
theorem move_eval_F (c : Cube) : c.move "F" =
    match moveFcw c.size c.U c.L c.D c.R with
    | none => none
    | some (u, l, d, r) =>
      some { c with F := rotCW c.size c.F, U := u, L := l, D := d, R := r } := rfl

/-- Evaluation of Cube.move at the primed F string. -/
theorem move_eval_Fp (c : Cube) : c.move (pr "F") =
    match moveFccw c.size c.U c.L c.D c.R with
    | none => none
    | some (u, l, d, r) =>
      some { c with F := rotCCW c.size c.F, U := u, L := l, D := d, R := r } := rfl

/-- Evaluation of Cube.move at the plain B string. -/
theorem move_eval_B (c : Cube) :
    c.move "B" = some { c with B := rotCW c.size c.B } := rfl

/-- Evaluation of Cube.move at the primed B string. -/
theorem move_eval_Bp (c : Cube) :
    c.move (pr "B") = some { c with B := rotCCW c.size c.B } := rfl

/-- Evaluation of Cube.move at the plain U string. -/
theorem move_eval_U (c : Cube) :
    c.move "U" = some { c with U := rotCW c.size c.U } := rfl

/-- Evaluation of Cube.move at the primed U string. -/
theorem move_eval_Up (c : Cube) :
    c.move (pr "U") = some { c with U := rotCCW c.size c.U } := rfl

/-- Evaluation of Cube.move at the plain D string. -/
theorem move_eval_D (c : Cube) :
    c.move "D" = some { c with D := rotCW c.size c.D } := rfl

/-- Evaluation of Cube.move at the primed D string. -/
theorem move_eval_Dp (c : Cube) :
    c.move (pr "D") = some { c with D := rotCCW c.size c.D } := rfl

/-- Evaluation of Cube.move at the plain L string. -/
theorem move_eval_L (c : Cube) :
    c.move "L" = some { c with L := rotCW c.size c.L } := rfl

/-- Evaluation of Cube.move at the primed L string. -/
theorem move_eval_Lp (c : Cube) :
    c.move (pr "L") = some { c with L := rotCCW c.size c.L } := rfl

/-- Evaluation of Cube.move at the plain R string. -/
theorem move_eval_R (c : Cube) :
    c.move "R" = some { c with R := rotCW c.size c.R } := rfl

/-- Evaluation of Cube.move at the primed R string. -/
theorem move_eval_Rp (c : Cube) :
    c.move (pr "R") = some { c with R := rotCCW c.size c.R } := rfl

/-- A list of a stated length 3 has exactly three elements. -/
theorem len3_shape {α : Type} {l : List α} (h : l.length = 3) :
    ∃ a b c, l = [a, b, c] := by
  rcases l with _ | ⟨a, _ | ⟨b, _ | ⟨c, _ | ⟨d, t⟩⟩⟩⟩
  · simp at h
  · simp at h
  · simp at h
  · exact ⟨a, b, c, rfl⟩
  · simp [Nat.add_eq_zero] at h

/-- A well-formed 3 x 3 grid is a literal three-by-three list. -/
theorem wf3_grid_shape {m : List (List String)} (h : WfGrid 3 m) :
    ∃ e11 e12 e13 e21 e22 e23 e31 e32 e33,
      m = [[e11, e12, e13], [e21, e22, e23], [e31, e32, e33]] := by
  obtain ⟨hl, hrow⟩ := h
  obtain ⟨r0, r1, r2, rfl⟩ := len3_shape hl
  obtain ⟨a, b, c, h0⟩ := len3_shape (hrow r0 (by simp))
  obtain ⟨d, e, f, h1⟩ := len3_shape (hrow r1 (by simp))
  obtain ⟨g, i, j, h2⟩ := len3_shape (hrow r2 (by simp))
  subst h0 h1 h2
  exact ⟨a, b, c, d, e, f, g, i, j, rfl⟩

/-- C2 (amended): on a well-formed cube, a quarter-CW move followed by its
quarter-CCW inverse restores the state for the five faces B, U, D, L, R at
every size, and for the F face at size 3; at size 2 the F move throws and at
sizes above 3 the pair need not restore the state (hardcoded row index 2 in
the clockwise front cycle). -/
theorem move_then_inverse_restores (c : Cube) (h : c.Wf) :
    (∀ m ∈ (["B", "U", "D", "L", "R"] : List String),
      (c.move m).bind (fun x => x.move (pr m)) = some c) ∧
    (c.size = 3 → (c.move "F").bind (fun x => x.move (pr "F")) = some c) := by
  obtain ⟨n, Uf, Df, Lf, Rf, Ff, Bf⟩ := c
  obtain ⟨hU, hD, hL, hR, hF, hB⟩ := h
  constructor
  · intro m hm
    simp only [List.mem_cons, List.not_mem_nil, or_false] at hm
    rcases hm with rfl | rfl | rfl | rfl | rfl
    · show some (Cube.mk n Uf Df Lf Rf Ff (rotCCW n (rotCW n Bf))) =
        some (Cube.mk n Uf Df Lf Rf Ff Bf)
      rw [rotCCW_rotCW hB]
    · show some (Cube.mk n (rotCCW n (rotCW n Uf)) Df Lf Rf Ff Bf) =
        some (Cube.mk n Uf Df Lf Rf Ff Bf)
      rw [rotCCW_rotCW hU]
    · show some (Cube.mk n Uf (rotCCW n (rotCW n Df)) Lf Rf Ff Bf) =
        some (Cube.mk n Uf Df Lf Rf Ff Bf)
      rw [rotCCW_rotCW hD]
    · show some (Cube.mk n Uf Df (rotCCW n (rotCW n Lf)) Rf Ff Bf) =
        some (Cube.mk n Uf Df Lf Rf Ff Bf)
      rw [rotCCW_rotCW hL]
    · show some (Cube.mk n Uf Df Lf (rotCCW n (rotCW n Rf)) Ff Bf) =
        some (Cube.mk n Uf Df Lf Rf Ff Bf)
      rw [rotCCW_rotCW hR]
  · intro hs
    have hn : n = 3 := hs
    subst hn
    obtain ⟨u1, u2, u3, u4, u5, u6, u7, u8, u9, hu⟩ := wf3_grid_shape hU
    obtain ⟨d1, d2, d3, d4, d5, d6, d7, d8, d9, hd⟩ := wf3_grid_shape hD
    obtain ⟨l1, l2, l3, l4, l5, l6, l7, l8, l9, hl⟩ := wf3_grid_shape hL
    obtain ⟨r1, r2, r3, r4, r5, r6, r7, r8, r9, hr⟩ := wf3_grid_shape hR
    obtain ⟨f1, f2, f3, f4, f5, f6, f7, f8, f9, hf⟩ := wf3_grid_shape hF
    subst hu hd hl hr hf
    rfl

/-- A well-formed, color-balanced 4x4 state: the solved cube with one W of
the U bottom row exchanged against one Y of the D top row, so that U rows 2
and 3 differ.  Each color still appears exactly 16 times. -/
def rowSwapped4 : Cube :=
  { size := 4,
    U := [["W", "W", "W", "W"], ["W", "W", "W", "W"], ["W", "W", "W", "W"],
          ["Y", "W", "W", "W"]],
    D := [["W", "Y", "Y", "Y"], ["Y", "Y", "Y", "Y"], ["Y", "Y", "Y", "Y"],
          ["Y", "Y", "Y", "Y"]],
    L := fullGrid 4 "G", R := fullGrid 4 "B", F := fullGrid 4 "R", B := fullGrid 4 "O" }

/-- Witness for C2 on the solved 3x3 cube: B then B-prime, and F then
F-prime, restore the state. -/
theorem move_then_inverse_restores_witness :
    ((solvedCube 3).move "F").bind (fun x => x.move (pr "F")) = some (solvedCube 3) :=
  (move_then_inverse_restores (solvedCube 3) (by decide)).2 rfl

/-- Counterexample to C2 as stated: at size 2 the F move throws (the pair
yields no state at all), and at size 4 the pair F, F-prime fails to restore
a well-formed balanced state whose U rows 2 and 3 differ. -/
theorem move_then_inverse_counterexample :
    moveSeq (solvedCube 2) ["F", pr "F"] = none ∧
    moveSeq rowSwapped4 ["F", pr "F"] ≠ some rowSwapped4 := by decide

/-- C1 (amended): for sizes 2, 3, 4 and a well-formed state, applying the
same quarter-CW move four times restores the state for the faces B, U, D,
L, R; for the F face this holds at size 3, while at size 2 the F move
throws a TypeError and at size 4 four F moves need not restore the state. -/
theorem quarter_turn_order_four (c : Cube) (h : c.Wf)
    (hs : c.size = 2 ∨ c.size = 3 ∨ c.size = 4) :
    (∀ m ∈ (["B", "U", "D", "L", "R"] : List String),
      moveSeq c [m, m, m, m] = some c) ∧
    (c.size = 3 → moveSeq c ["F", "F", "F", "F"] = some c) := by
  clear hs
  obtain ⟨n, Uf, Df, Lf, Rf, Ff, Bf⟩ := c
  obtain ⟨hU, hD, hL, hR, hF, hB⟩ := h
  constructor
  · intro m hm
    simp only [List.mem_cons, List.not_mem_nil, or_false] at hm
    rcases hm with rfl | rfl | rfl | rfl | rfl
    · show some (Cube.mk n Uf Df Lf Rf Ff (rotCW n (rotCW n (rotCW n (rotCW n Bf))))) =
        some (Cube.mk n Uf Df Lf Rf Ff Bf)
      rw [rotCW_four hB]
    · show some (Cube.mk n (rotCW n (rotCW n (rotCW n (rotCW n Uf)))) Df Lf Rf Ff Bf) =
        some (Cube.mk n Uf Df Lf Rf Ff Bf)
      rw [rotCW_four hU]
    · show some (Cube.mk n Uf (rotCW n (rotCW n (rotCW n (rotCW n Df)))) Lf Rf Ff Bf) =
        some (Cube.mk n Uf Df Lf Rf Ff Bf)
      rw [rotCW_four hD]
    · show some (Cube.mk n Uf Df (rotCW n (rotCW n (rotCW n (rotCW n Lf)))) Rf Ff Bf) =
        some (Cube.mk n Uf Df Lf Rf Ff Bf)
      rw [rotCW_four hL]
    · show some (Cube.mk n Uf Df Lf (rotCW n (rotCW n (rotCW n (rotCW n Rf)))) Ff Bf) =
        some (Cube.mk n Uf Df Lf Rf Ff Bf)
      rw [rotCW_four hR]
  · intro hs
    have hn : n = 3 := hs
    subst hn
    obtain ⟨u1, u2, u3, u4, u5, u6, u7, u8, u9, hu⟩ := wf3_grid_shape hU
    obtain ⟨d1, d2, d3, d4, d5, d6, d7, d8, d9, hd⟩ := wf3_grid_shape hD
    obtain ⟨l1, l2, l3, l4, l5, l6, l7, l8, l9, hl⟩ := wf3_grid_shape hL
    obtain ⟨r1, r2, r3, r4, r5, r6, r7, r8, r9, hr⟩ := wf3_grid_shape hR
    obtain ⟨f1, f2, f3, f4, f5, f6, f7, f8, f9, hf⟩ := wf3_grid_shape hF
    subst hu hd hl hr hf
    rfl

/-- Witness for C1 on the solved 3x3 cube: four F moves restore the state. -/
theorem quarter_turn_order_four_witness :
    moveSeq (solvedCube 3) ["F", "F", "F", "F"] = some (solvedCube 3) :=
  (quarter_turn_order_four (solvedCube 3) (by decide) (by decide)).2 rfl

/-- Counterexample to C1 as stated: at size 2 four F moves throw a
TypeError (spread of undefined U row 2) instead of returning the original
state, and at size 4 four F moves on the solved cube do not restore it. -/
theorem quarter_turn_order_four_counterexample :
    moveSeq (solvedCube 2) ["F", "F", "F", "F"] = none ∧
    moveSeq (solvedCube 4) ["F", "F", "F", "F"] ≠ some (solvedCube 4) := by decide

/-- The move string of a face with an optional prime marker. -/
def mvStr (f : String) (isP : Bool) : String := if isP then pr f else f

/-- C6: for each opposite-face pair (F/B, U/D, L/R), each pair of
directions, and every starting state, applying the two quarter moves via
Cube.move in either order yields the same result.  The F move touches only
the F, U, L, D, R grids while the B move touches only the B grid (its
sticker permutation is a stub), and the U/D and L/R moves touch only their
own grids; a thrown front-cycle TypeError (none) occurs in both orders
alike. -/
theorem opposite_face_moves_commute (c : Cube) (b1 b2 : Bool) :
    ((c.move (mvStr "F" b1)).bind (fun x => x.move (mvStr "B" b2)) =
      (c.move (mvStr "B" b2)).bind (fun x => x.move (mvStr "F" b1))) ∧
    ((c.move (mvStr "U" b1)).bind (fun x => x.move (mvStr "D" b2)) =
      (c.move (mvStr "D" b2)).bind (fun x => x.move (mvStr "U" b1))) ∧
    ((c.move (mvStr "L" b1)).bind (fun x => x.move (mvStr "R" b2)) =
      (c.move (mvStr "R" b2)).bind (fun x => x.move (mvStr "L" b1))) := by
  refine ⟨?_, ?_, ?_⟩
  · cases b1 <;> cases b2 <;> simp only [mvStr, if_true, if_false, Bool.false_eq_true,
      move_eval_F, move_eval_Fp, move_eval_B, move_eval_Bp]
    · cases hu : moveFcw c.size c.U c.L c.D c.R with
      | none => simp [hu]
      | some t => obtain ⟨u, l, d, r⟩ := t; simp [hu]
    · cases hu : moveFcw c.size c.U c.L c.D c.R with
      | none => simp [hu]
      | some t => obtain ⟨u, l, d, r⟩ := t; simp [hu]
    · cases hu : moveFccw c.size c.U c.L c.D c.R with
      | none => simp [hu]
      | some t => obtain ⟨u, l, d, r⟩ := t; simp [hu]
    · cases hu : moveFccw c.size c.U c.L c.D c.R with
      | none => simp [hu]
      | some t => obtain ⟨u, l, d, r⟩ := t; simp [hu]
  · cases b1 <;> cases b2 <;> rfl
  · cases b1 <;> cases b2 <;> rfl

/-- toLowerCase on a move string. -/
def lowerStr (s : String) : String := String.mk (s.data.map Char.toLower)

/-- Scrambler.getMovesForSize: six outer moves for size 2, twelve for size
3, and twelve outer plus twelve slice moves for larger sizes. -/
def movesForSize (size : Nat) : List String :=
  if size = 2 then ["F", pr "F", "R", pr "R", "U", pr "U"]
  else if size = 3 then
    ["F", pr "F", "R", pr "R", "U", pr "U", "B", pr "B", "L", pr "L", "D", pr "D"]
  else
    ["F", pr "F", "R", pr "R", "U", pr "U", "B", pr "B", "L", pr "L", "D", pr "D",
     "f", pr "f", "r", pr "r", "u", pr "u", "b", pr "b", "l", pr "l", "d", pr "d"]

/-- Scrambler.getMoveAxis: strips the first apostrophe, lowercases, then
maps f/b to x, r/l to y, u/d to z, and anything else to itself. -/
def getMoveAxis (move : String) : String :=
  let face := lowerStr (stripPrime move)
  if face = "f" ∨ face = "b" then "x"
  else if face = "r" ∨ face = "l" then "y"
  else if face = "u" ∨ face = "d" then "z"
  else face

/-- Scrambler.getRandomMove: filters out the previous move and every move on
the previous axis, returns null (none) if nothing remains, and otherwise
picks the entry at Math.floor(Math.random()*length), modelled as an
arbitrary natural rnd taken modulo the length. -/
def getRandomMove (moves : List String) (lastMove lastAxis : String) (rnd : Nat) :
    Option String :=
  let availableMoves := moves.filter fun move =>
    !(move == lastMove) && !(getMoveAxis move == lastAxis)
  if availableMoves.length = 0 then none
  else availableMoves[rnd % availableMoves.length]?

/-- The while loop of Scrambler.generateScramble, with an explicit fuel
bound on the number of iterations (the theorem below shows fuel equal to
the requested length always suffices, because getRandomMove never returns
null for the move sets of this scrambler); the loop pushes each drawn move
and remembers it and its axis.  The accumulator holds the scramble in
reverse order; rand k models the k-th call of Math.random. -/
def genLoop (moves : List String) (rand : Nat → Nat) (len : Nat) :
    Nat → List String → String → String → Nat → Option (List String)
  | 0, scramble, _, _, _ =>
    if scramble.length < len then none else some scramble.reverse
  | fuel + 1, scramble, lastMove, lastAxis, k =>
    if scramble.length < len then
      match getRandomMove moves lastMove lastAxis (rand k) with
      | some m => genLoop moves rand len fuel (m :: scramble) m (getMoveAxis m) (k + 1)
      | none => genLoop moves rand len fuel scramble lastMove lastAxis (k + 1)
    else some scramble.reverse

/-- Scrambler.generateScramble(length): runs the loop from an empty
scramble with empty lastMove and lastAxis. -/
def generateScramble (size : Nat) (rand : Nat → Nat) (len : Nat) : Option (List String) :=
  genLoop (movesForSize size) rand len len [] "" "" 0

/-- The axis of a move depends only on its face part. -/
theorem getMoveAxis_congr {a b : String} (h : stripPrime a = stripPrime b) :
    getMoveAxis a = getMoveAxis b := by
  unfold getMoveAxis
  rw [h]

/-- Whenever the previous axis really is the axis of the previous move (as
the loop maintains) and the move set contains F and R, getRandomMove
succeeds and draws a move on a different axis than the previous one:
filtering removes at most one of the three axis classes. -/
theorem getRandomMove_succeeds (moves : List String) (hF : "F" ∈ moves)
    (hR : "R" ∈ moves) (lastMove : String) (rnd : Nat) :
    ∃ m, getRandomMove moves lastMove (getMoveAxis lastMove) rnd = some m ∧
      getMoveAxis m ≠ getMoveAxis lastMove := by
  unfold getRandomMove
  set p : String → Bool := fun move =>
    !(move == lastMove) && !(getMoveAxis move == getMoveAxis lastMove) with hp
  have hnonempty : ∃ w, w ∈ moves.filter p := by
    by_cases hx : getMoveAxis lastMove = "x"
    · refine ⟨"R", List.mem_filter.mpr ⟨hR, ?_⟩⟩
      have hax : getMoveAxis "R" = "y" := rfl
      have hne : "R" ≠ lastMove := by
        intro he
        rw [← he, hax] at hx
        exact absurd hx (by decide)
      simp [hp, hne, hax, hx]
    · refine ⟨"F", List.mem_filter.mpr ⟨hF, ?_⟩⟩
      have hax : getMoveAxis "F" = "x" := rfl
      have hne : "F" ≠ lastMove := by
        intro he
        rw [← he, hax] at hx
        exact hx rfl
      simp [hp, hne, hax]
      intro he
      exact hx he.symm
  obtain ⟨w, hw⟩ := hnonempty
  have hlen : (moves.filter p).length ≠ 0 := by
    intro h0
    rw [List.length_eq_zero] at h0
    rw [h0] at hw
    cases hw
  have hmod : rnd % (moves.filter p).length < (moves.filter p).length :=
    Nat.mod_lt _ (Nat.pos_of_ne_zero hlen)
  refine ⟨(moves.filter p)[rnd % (moves.filter p).length], ?_, ?_⟩
  · simp only [hlen, if_false]
    rw [List.getElem?_eq_getElem hmod]
  · have hmem := List.getElem_mem hmod
    have hpred := (List.mem_filter.mp hmem).2
    simp only [hp, Bool.and_eq_true, Bool.not_eq_true', beq_eq_false_iff_ne] at hpred
    exact hpred.2

/-- The adjacency constraint of the scrambler output: two consecutive moves
have different axes and different face parts. -/
def scramblePairOk (a b : String) : Prop :=
  getMoveAxis a ≠ getMoveAxis b ∧ stripPrime a ≠ stripPrime b

/-- Loop invariant of generateScramble: with fuel covering the missing
moves, the loop completes, yields exactly max len (length of accumulator)
moves, and every adjacent output pair satisfies the axis and face
constraints.  The accumulator is the reversed prefix, its head is the last
move drawn, and it already satisfies the reversed constraint. -/
theorem genLoop_spec (moves : List String) (hF : "F" ∈ moves) (hR : "R" ∈ moves)
    (rand : Nat → Nat) (len : Nat) :
    ∀ fuel scramble lastMove k,
      len ≤ scramble.length + fuel →
      (scramble = [] ∨ scramble.head? = some lastMove) →
      List.Chain' (fun a b => scramblePairOk b a) scramble →
      ∃ out,
        genLoop moves rand len fuel scramble lastMove (getMoveAxis lastMove) k = some out ∧
        out.length = max len scramble.length ∧ List.Chain' scramblePairOk out := by
  intro fuel
  induction fuel with
  | zero =>
    intro scramble lastMove k hfuel _ hchain
    refine ⟨scramble.reverse, ?_, ?_, ?_⟩
    · simp only [genLoop]
      rw [if_neg (by omega)]
    · simp only [List.length_reverse]
      omega
    · rw [List.chain'_reverse]
      exact hchain
  | succ fuel ih =>
    intro scramble lastMove k hfuel hhead hchain
    by_cases hlt : scramble.length < len
    · obtain ⟨m, hm, haxis⟩ := getRandomMove_succeeds moves hF hR lastMove (rand k)
      have hstep :
          genLoop moves rand len (fuel + 1) scramble lastMove (getMoveAxis lastMove) k =
            genLoop moves rand len fuel (m :: scramble) m (getMoveAxis m) (k + 1) := by
        simp only [genLoop]
        rw [if_pos hlt, hm]
      rw [hstep]
      have hface : stripPrime m ≠ stripPrime lastMove := by
        intro he
        exact haxis (getMoveAxis_congr he)
      have hchain' : List.Chain' (fun a b => scramblePairOk b a) (m :: scramble) := by
        cases scramble with
        | nil => simp
        | cons s t =>
          have hs : s = lastMove := by
            rcases hhead with he | he
            · cases he
            · simpa using he
          subst hs
          exact List.chain'_cons.mpr ⟨⟨fun he => haxis he.symm, fun he => hface he.symm⟩, hchain⟩
      obtain ⟨out, hout, hlen2, hchain2⟩ :=
        ih (m :: scramble) m (k + 1) (by simp; omega) (Or.inr rfl) hchain'
      refine ⟨out, hout, ?_, hchain2⟩
      simp only [List.length_cons] at hlen2
      omega
    · refine ⟨scramble.reverse, ?_, ?_, ?_⟩
      · simp only [genLoop]
        rw [if_neg hlt]
      · simp only [List.length_reverse]
        omega
      · rw [List.chain'_reverse]
        exact hchain

/-- C8: for sizes 2, 3, 4 and any requested length of at least 1, the
scramble generator terminates (fuel equal to the length suffices because
every draw succeeds), returns exactly len moves, and every adjacent pair of
output moves has different axes and different face parts. -/
theorem generateScramble_spec (size : Nat) (hsize : size = 2 ∨ size = 3 ∨ size = 4)
    (len : Nat) (hlen : 1 ≤ len) (rand : Nat → Nat) :
    ∃ out, generateScramble size rand len = some out ∧ out.length = len ∧
      List.Chain' scramblePairOk out := by
  clear hlen
  have hF : "F" ∈ movesForSize size := by
    rcases hsize with rfl | rfl | rfl <;> decide
  have hR : "R" ∈ movesForSize size := by
    rcases hsize with rfl | rfl | rfl <;> decide
  have hax : getMoveAxis "" = "" := rfl
  obtain ⟨out, hout, hlen2, hchain⟩ :=
    genLoop_spec (movesForSize size) hF hR rand len len [] "" 0 (by simp) (Or.inl rfl)
      (by simp)
  refine ⟨out, ?_, ?_, hchain⟩
  · unfold generateScramble
    rw [← hax]
    exact hout
  · simpa using hlen2

/-- Witness for C8: size 3, length 20, with the random stream constantly 0:
the generator returns exactly 20 moves with the adjacency constraints. -/
theorem generateScramble_spec_witness :
    ∃ out, generateScramble 3 (fun _ => 0) 20 = some out ∧ out.length = 20 ∧
      List.Chain' scramblePairOk out :=
  generateScramble_spec 3 (by decide) 20 (by decide) (fun _ => 0)

/-- Indicator counting one sticker of color s. -/
def indC (s a : String) : Nat := if a = s then 1 else 0

/-- Number of stickers of color s in row r of an n x n grid. -/
def rowCnt (n : Nat) (s : String) (m : List (List String)) (r : Nat) : Nat :=
  ∑ c ∈ Finset.range n, indC s (entryD m r c)

/-- Number of stickers of color s in column c of an n x n grid. -/
def colCnt (n : Nat) (s : String) (m : List (List String)) (c : Nat) : Nat :=
  ∑ r ∈ Finset.range n, indC s (entryD m r c)

/-- Number of stickers of color s in an n x n grid. -/
def gridCnt (n : Nat) (s : String) (m : List (List String)) : Nat :=
  ∑ r ∈ Finset.range n, rowCnt n s m r

/-- The count of a color in a list equals the sum of the indicators of its
in-range reads. -/
theorem count_eq_sum_getD (s : String) (l : List String) (d : String) :
    l.count s = ∑ c ∈ Finset.range l.length, indC s (l.getD c d) := by
  induction l with
  | nil => simp
  | cons a t ih =>
    rw [List.count_cons, List.length_cons, Finset.sum_range_succ']
    simp only [List.getD_cons_succ, List.getD_cons_zero, ← ih]
    unfold indC
    by_cases he : a = s
    · simp [he]
    · simp [he]

/-- The count of a color in the flattened grid is the sum of per-row
counts. -/
theorem count_flatten_eq_sum_rows (s : String) (m : List (List String)) :
    m.flatten.count s = ∑ r ∈ Finset.range m.length, (m.getD r []).count s := by
  induction m with
  | nil => simp
  | cons row t ih =>
    rw [List.flatten_cons, List.count_append, List.length_cons, Finset.sum_range_succ']
    simp only [List.getD_cons_succ, List.getD_cons_zero, ← ih]
    omega

/-- On a well-formed grid the flattened count equals the double sum of
entry indicators. -/
theorem count_flatten_eq_gridCnt {n : Nat} {m : List (List String)} (h : WfGrid n m)
    (s : String) : m.flatten.count s = gridCnt n s m := by
  rw [count_flatten_eq_sum_rows, h.1]
  unfold gridCnt rowCnt
  apply Finset.sum_congr rfl
  intro r hr
  rw [count_eq_sum_getD s _ undef, wf_row_length h (Finset.mem_range.mp hr)]
  rfl

/-- A clockwise face rotation permutes the entries of a well-formed grid,
so the per-color sums are unchanged. -/
theorem gridCnt_rotCW {n : Nat} {m : List (List String)} (s : String) :
    gridCnt n s (rotCW n m) = gridCnt n s m := by
  unfold gridCnt rowCnt
  rw [← Finset.sum_product', ← Finset.sum_product']
  refine Finset.sum_nbij' (fun p => ((n - 1 - p.2 : Nat), (p.1 : Nat)))
    (fun q => ((q.2 : Nat), (n - 1 - q.1 : Nat))) ?_ ?_ ?_ ?_ ?_
  · rintro ⟨a, b⟩ hab
    simp only [Finset.mem_product, Finset.mem_range] at hab ⊢
    omega
  · rintro ⟨a, b⟩ hab
    simp only [Finset.mem_product, Finset.mem_range] at hab ⊢
    omega
  · rintro ⟨a, b⟩ hab
    simp only [Finset.mem_product, Finset.mem_range] at hab
    have : n - 1 - (n - 1 - b) = b := by omega
    simp [this]
  · rintro ⟨a, b⟩ hab
    simp only [Finset.mem_product, Finset.mem_range] at hab
    have : n - 1 - (n - 1 - a) = a := by omega
    simp [this]
  · rintro ⟨a, b⟩ hab
    simp only [Finset.mem_product, Finset.mem_range] at hab
    rw [entryD_rotCW m hab.1 hab.2]

/-- A counter-clockwise face rotation also preserves the per-color sums. -/
theorem gridCnt_rotCCW {n : Nat} {m : List (List String)} (s : String) :
    gridCnt n s (rotCCW n m) = gridCnt n s m := by
  unfold gridCnt rowCnt
  rw [← Finset.sum_product', ← Finset.sum_product']
  refine Finset.sum_nbij' (fun p => ((p.2 : Nat), (n - 1 - p.1 : Nat)))
    (fun q => ((n - 1 - q.2 : Nat), (q.1 : Nat))) ?_ ?_ ?_ ?_ ?_
  · rintro ⟨a, b⟩ hab
    simp only [Finset.mem_product, Finset.mem_range] at hab ⊢
    omega
  · rintro ⟨a, b⟩ hab
    simp only [Finset.mem_product, Finset.mem_range] at hab ⊢
    omega
  · rintro ⟨a, b⟩ hab
    simp only [Finset.mem_product, Finset.mem_range] at hab
    have : n - 1 - (n - 1 - a) = a := by omega
    simp [this]
  · rintro ⟨a, b⟩ hab
    simp only [Finset.mem_product, Finset.mem_range] at hab
    have : n - 1 - (n - 1 - b) = b := by omega
    simp [this]
  · rintro ⟨a, b⟩ hab
    simp only [Finset.mem_product, Finset.mem_range] at hab
    rw [entryD_rotCCW m hab.1 hab.2]

/-- Rotating a well-formed face clockwise does not change any color count. -/
theorem count_rotCW {n : Nat} {m : List (List String)} (h : WfGrid n m) (s : String) :
    (rotCW n m).flatten.count s = m.flatten.count s := by
  rw [count_flatten_eq_gridCnt (wf_rotCW n m) s, count_flatten_eq_gridCnt h s, gridCnt_rotCW]

/-- Rotating a well-formed face counter-clockwise does not change any color
count. -/
theorem count_rotCCW {n : Nat} {m : List (List String)} (h : WfGrid n m) (s : String) :
    (rotCCW n m).flatten.count s = m.flatten.count s := by
  rw [count_flatten_eq_gridCnt (wf_rotCCW n m) s, count_flatten_eq_gridCnt h s, gridCnt_rotCCW]

/-- Entry of a grid after overwriting row r0 with generated values. -/
theorem entryD_set_row {n : Nat} {m : List (List String)} (h : WfGrid n m) (r0 : Nat)
    (hr0 : r0 < n) (g : Nat → String) {r c : Nat} (hc : c < n) :
    entryD (m.set r0 (rowOf n g)) r c = if r = r0 then g c else entryD m r c := by
  unfold entryD
  by_cases he : r = r0
  · subst he
    rw [if_pos rfl]
    have hrow : (m.set r (rowOf n g)).getD r [] = rowOf n g := by
      rw [List.getD_eq_getElem?_getD, List.getElem?_set]
      simp [h.1, hr0]
    rw [hrow]
    exact mapRange_getD n g c undef hc
  · rw [if_neg he]
    have hrow : (m.set r0 (rowOf n g)).getD r [] = m.getD r [] := by
      rw [List.getD_eq_getElem?_getD, List.getElem?_set,
        if_neg (fun hh => he hh.symm), ← List.getD_eq_getElem?_getD]
    rw [hrow]

/-- Entry of a grid after overwriting column c0 with generated values. -/
theorem entryD_colSet {n : Nat} {m : List (List String)} (h : WfGrid n m) (c0 : Nat)
    (hc0 : c0 < n) (g : Nat → String) {r c : Nat} (hr : r < n) :
    entryD (colSet m c0 g n) r c = if c = c0 then g r else entryD m r c := by
  unfold entryD colSet
  rw [mapRange_getD n _ r [] hr]
  by_cases he : c = c0
  · subst he
    rw [if_pos rfl, List.getD_eq_getElem?_getD, List.getElem?_set]
    have hlt : c < (m[r]?.getD []).length := by
      rw [← List.getD_eq_getElem?_getD, wf_row_length h hr]
      exact hc0
    simp [hlt]
  · rw [if_neg he, List.getD_eq_getElem?_getD, List.getElem?_set,
      if_neg (fun hh => he hh.symm), ← List.getD_eq_getElem?_getD]

/-- Overwriting a row with n generated values keeps a grid well formed. -/
theorem wf_set_row {n : Nat} {m : List (List String)} (h : WfGrid n m) (r0 : Nat)
    (g : Nat → String) : WfGrid n (m.set r0 (rowOf n g)) := by
  constructor
  · rw [List.length_set]
    exact h.1
  · intro row hrow
    rcases List.mem_or_eq_of_mem_set hrow with hmem | rfl
    · exact h.2 row hmem
    · simp [rowOf]

/-- Overwriting a column keeps a well-formed grid well formed. -/
theorem wf_colSet {n : Nat} {m : List (List String)} (h : WfGrid n m) (c0 : Nat)
    (g : Nat → String) : WfGrid n (colSet m c0 g n) := by
  constructor
  · simp [colSet]
  · intro row hrow
    simp only [colSet, List.mem_map, List.mem_range] at hrow
    obtain ⟨i, hi, rfl⟩ := hrow
    rw [List.length_set]
    exact wf_row_length h hi

/-- Color-sum bookkeeping for a row overwrite: the new grid sum plus the
removed row sum equals the old grid sum plus the written values sum. -/
theorem gridCnt_set_row {n : Nat} {m : List (List String)} (h : WfGrid n m) {r0 : Nat}
    (hr0 : r0 < n) (g : Nat → String) (s : String) :
    gridCnt n s (m.set r0 (rowOf n g)) + rowCnt n s m r0 =
      gridCnt n s m + ∑ c ∈ Finset.range n, indC s (g c) := by
  have hmem : r0 ∈ Finset.range n := Finset.mem_range.mpr hr0
  have hsplit : ∀ r ∈ Finset.range n, rowCnt n s (m.set r0 (rowOf n g)) r =
      if r = r0 then (∑ c ∈ Finset.range n, indC s (g c)) else rowCnt n s m r := by
    intro r hr
    unfold rowCnt
    by_cases he : r = r0
    · rw [if_pos he]
      refine Finset.sum_congr rfl fun c hc => ?_
      rw [entryD_set_row h r0 hr0 g (Finset.mem_range.mp hc), if_pos he]
    · rw [if_neg he]
      refine Finset.sum_congr rfl fun c hc => ?_
      rw [entryD_set_row h r0 hr0 g (Finset.mem_range.mp hc), if_neg he]
  unfold gridCnt
  rw [Finset.sum_congr rfl hsplit]
  rw [← Finset.add_sum_erase _ _ hmem, ← Finset.add_sum_erase _ (rowCnt n s m) hmem]
  have herase : ∑ r ∈ (Finset.range n).erase r0,
      (if r = r0 then (∑ c ∈ Finset.range n, indC s (g c)) else rowCnt n s m r) =
      ∑ r ∈ (Finset.range n).erase r0, rowCnt n s m r := by
    refine Finset.sum_congr rfl fun r hr => ?_
    rw [if_neg (Finset.ne_of_mem_erase hr)]
  rw [if_pos rfl, herase]
  omega

/-- Color-sum bookkeeping for a column overwrite: the new grid sum plus the
removed column sum equals the old grid sum plus the written values sum. -/
theorem gridCnt_colSet {n : Nat} {m : List (List String)} (h : WfGrid n m) {c0 : Nat}
    (hc0 : c0 < n) (g : Nat → String) (s : String) :
    gridCnt n s (colSet m c0 g n) + colCnt n s m c0 =
      gridCnt n s m + ∑ r ∈ Finset.range n, indC s (g r) := by
  have hmem : c0 ∈ Finset.range n := Finset.mem_range.mpr hc0
  have hrow : ∀ r ∈ Finset.range n,
      rowCnt n s (colSet m c0 g n) r + indC s (entryD m r c0) =
        rowCnt n s m r + indC s (g r) := by
    intro r hr
    unfold rowCnt
    have hc : ∀ c ∈ Finset.range n, indC s (entryD (colSet m c0 g n) r c) =
        if c = c0 then indC s (g r) else indC s (entryD m r c) := by
      intro c hc
      rw [entryD_colSet h c0 hc0 g (Finset.mem_range.mp hr)]
      by_cases he : c = c0
      · rw [if_pos he, if_pos he]
      · rw [if_neg he, if_neg he]
    rw [Finset.sum_congr rfl hc]
    rw [← Finset.add_sum_erase _ _ hmem,
      ← Finset.add_sum_erase _ (fun c => indC s (entryD m r c)) hmem]
    have herase : ∑ c ∈ (Finset.range n).erase c0,
        (if c = c0 then indC s (g r) else indC s (entryD m r c)) =
        ∑ c ∈ (Finset.range n).erase c0, indC s (entryD m r c) := by
      refine Finset.sum_congr rfl fun c hcc => ?_
      rw [if_neg (Finset.ne_of_mem_erase hcc)]
    rw [if_pos rfl, herase]
    omega
  have hs : ∑ r ∈ Finset.range n,
      (rowCnt n s (colSet m c0 g n) r + indC s (entryD m r c0)) =
      ∑ r ∈ Finset.range n, (rowCnt n s m r + indC s (g r)) :=
    Finset.sum_congr rfl hrow
  rw [Finset.sum_add_distrib, Finset.sum_add_distrib] at hs
  exact hs

/-- The counter-clockwise front cycle moves each boundary strip (U bottom
row, R left column, D top row, L right column) onto the next one, so for
every color the total count over the four touched faces is unchanged, at
every size. -/
theorem moveFccw_counts {n : Nat} {uf lf df rf u l d r : List (List String)}
    (hu : WfGrid n uf) (hl : WfGrid n lf) (hd : WfGrid n df) (hr : WfGrid n rf)
    (he : moveFccw n uf lf df rf = some (u, l, d, r)) (s : String) :
    u.flatten.count s + l.flatten.count s + d.flatten.count s + r.flatten.count s =
      uf.flatten.count s + lf.flatten.count s + df.flatten.count s + rf.flatten.count s := by
  unfold moveFccw at he
  cases htemp : uf[n - 1]? with
  | none => rw [htemp] at he; cases he
  | some temp =>
    rw [htemp] at he
    have he2 := Option.some.inj he
    simp only [Prod.mk.injEq] at he2
    obtain ⟨h1, h2, h3, h4⟩ := he2
    subst h1 h2 h3 h4
    have hn : 0 < n := by
      rcases Nat.eq_zero_or_pos n with h0 | h0
      · rw [List.getElem?_eq_none (by rw [hu.1]; omega)] at htemp
        cases htemp
      · exact h0
    have htempD : ∀ j, temp.getD j undef = entryD uf (n - 1) j := by
      intro j
      unfold entryD
      have hrow : uf.getD (n - 1) [] = temp := by
        rw [List.getD_eq_getElem?_getD, htemp]
        rfl
      rw [hrow]
    have hU := gridCnt_set_row hu (show n - 1 < n by omega) (fun i => entryD rf i 0) s
    have hL := gridCnt_colSet hl (show n - 1 < n by omega)
      (fun j => temp.getD (n - 1 - j) undef) s
    have hD := gridCnt_set_row hd (show 0 < n by omega) (fun i => entryD lf i (n - 1)) s
    have hR := gridCnt_colSet hr (show 0 < n by omega) (fun i => entryD df 0 (n - 1 - i)) s
    have hUg : (∑ i ∈ Finset.range n, indC s (entryD rf i 0)) = colCnt n s rf 0 := rfl
    have hLg : (∑ j ∈ Finset.range n, indC s (temp.getD (n - 1 - j) undef)) =
        rowCnt n s uf (n - 1) := by
      have hcongr : ∀ j ∈ Finset.range n,
          indC s (temp.getD (n - 1 - j) undef) = indC s (entryD uf (n - 1) (n - 1 - j)) := by
        intro j _
        rw [htempD]
      rw [Finset.sum_congr rfl hcongr]
      exact Finset.sum_range_reflect (fun j => indC s (entryD uf (n - 1) j)) n
    have hDg : (∑ i ∈ Finset.range n, indC s (entryD lf i (n - 1))) = colCnt n s lf (n - 1) :=
      rfl
    have hRg : (∑ i ∈ Finset.range n, indC s (entryD df 0 (n - 1 - i))) = rowCnt n s df 0 :=
      Finset.sum_range_reflect (fun j => indC s (entryD df 0 j)) n
    rw [hUg] at hU
    rw [hLg] at hL
    rw [hDg] at hD
    rw [hRg] at hR
    rw [count_flatten_eq_gridCnt (wf_set_row hu _ _) s,
      count_flatten_eq_gridCnt (wf_colSet hl _ _) s,
      count_flatten_eq_gridCnt (wf_set_row hd _ _) s,
      count_flatten_eq_gridCnt (wf_colSet hr _ _) s,
      count_flatten_eq_gridCnt hu s, count_flatten_eq_gridCnt hl s,
      count_flatten_eq_gridCnt hd s, count_flatten_eq_gridCnt hr s]
    omega

/-- At size 3 (where the hardcoded temp row U[2] is the bottom row) the
clockwise front cycle also preserves, for every color, the total count over
the four touched faces. -/
theorem moveFcw_counts {n : Nat} {uf lf df rf u l d r : List (List String)}
    (hu : WfGrid n uf) (hl : WfGrid n lf) (hd : WfGrid n df) (hr : WfGrid n rf)
    (hn3 : n = 3) (he : moveFcw n uf lf df rf = some (u, l, d, r)) (s : String) :
    u.flatten.count s + l.flatten.count s + d.flatten.count s + r.flatten.count s =
      uf.flatten.count s + lf.flatten.count s + df.flatten.count s + rf.flatten.count s := by
  subst hn3
  unfold moveFcw at he
  cases htemp : uf[2]? with
  | none => rw [htemp] at he; cases he
  | some temp =>
    rw [htemp] at he
    have he2 := Option.some.inj he
    simp only [Prod.mk.injEq] at he2
    obtain ⟨h1, h2, h3, h4⟩ := he2
    subst h1 h2 h3 h4
    have htempD : ∀ j, temp.getD j undef = entryD uf 2 j := by
      intro j
      unfold entryD
      have hrow : uf.getD 2 [] = temp := by
        rw [List.getD_eq_getElem?_getD, htemp]
        rfl
      rw [hrow]
    have hU := gridCnt_set_row hu (show 3 - 1 < 3 by omega)
      (fun i => entryD lf (3 - 1 - i) (3 - 1)) s
    have hL := gridCnt_colSet hl (show 3 - 1 < 3 by omega) (fun i => entryD df 0 i) s
    have hD := gridCnt_set_row hd (show 0 < 3 by omega)
      (fun i => entryD rf (3 - 1 - i) 0) s
    have hR := gridCnt_colSet hr (show 0 < 3 by omega) (fun i => temp.getD i undef) s
    have hUg : (∑ i ∈ Finset.range 3, indC s (entryD lf (3 - 1 - i) (3 - 1))) =
        colCnt 3 s lf (3 - 1) :=
      Finset.sum_range_reflect (fun j => indC s (entryD lf j (3 - 1))) 3
    have hLg : (∑ i ∈ Finset.range 3, indC s (entryD df 0 i)) = rowCnt 3 s df 0 := rfl
    have hDg : (∑ i ∈ Finset.range 3, indC s (entryD rf (3 - 1 - i) 0)) = colCnt 3 s rf 0 :=
      Finset.sum_range_reflect (fun j => indC s (entryD rf j 0)) 3
    have hRg : (∑ i ∈ Finset.range 3, indC s (temp.getD i undef)) = rowCnt 3 s uf 2 := by
      have hcongr : ∀ i ∈ Finset.range 3,
          indC s (temp.getD i undef) = indC s (entryD uf 2 i) := by
        intro i _
        rw [htempD]
      rw [Finset.sum_congr rfl hcongr]
      rfl
    have hrow32 : rowCnt 3 s uf (3 - 1) = rowCnt 3 s uf 2 := rfl
    rw [hUg] at hU
    rw [hLg] at hL
    rw [hDg] at hD
    rw [hRg] at hR
    rw [hrow32] at hU
    rw [count_flatten_eq_gridCnt (wf_set_row hu _ _) s,
      count_flatten_eq_gridCnt (wf_colSet hl _ _) s,
      count_flatten_eq_gridCnt (wf_set_row hd _ _) s,
      count_flatten_eq_gridCnt (wf_colSet hr _ _) s,
      count_flatten_eq_gridCnt hu s, count_flatten_eq_gridCnt hl s,
      count_flatten_eq_gridCnt hd s, count_flatten_eq_gridCnt hr s]
    omega

/-- The twelve outer quarter-turn move strings of the engine. -/
def twelveMoves : List String :=
  ["F", pr "F", "B", pr "B", "U", pr "U", "D", pr "D", "L", pr "L", "R", pr "R"]

/-- Total number of stickers of color s across the whole cube. -/
def cubeCount (c : Cube) (s : String) : Nat :=
  c.U.flatten.count s + c.D.flatten.count s + c.L.flatten.count s +
    c.R.flatten.count s + c.F.flatten.count s + c.B.flatten.count s

/-- Each of the six colors appears exactly size * size times across the
whole cube. -/
def balanced (c : Cube) : Prop :=
  ∀ s ∈ validColors, cubeCount c s = c.size * c.size

instance (c : Cube) : Decidable (balanced c) := by
  unfold balanced; infer_instance

/-- Boolean form of the balance invariant, for concrete evaluation. -/
def balancedB (c : Cube) : Bool := decide (balanced c)

/-- C4 (amended): on a well-formed state in which each color appears exactly
size-squared times, any of the twelve quarter-turn moves that completes
preserves that property, except that the clockwise F move is only covered at
size 3: at other sizes its boundary cycle copies the hardcoded row U[2]
instead of the bottom row, and can change the color counts. -/
theorem legal_move_preserves_balance (c : Cube) (m : String) (c' : Cube) (h : c.Wf)
    (hm : m ∈ twelveMoves) (hF3 : m = "F" → c.size = 3)
    (he : c.move m = some c') (hb : balanced c) : balanced c' := by
  obtain ⟨hU, hD, hL, hR, hF, hB⟩ := h
  simp only [twelveMoves, List.mem_cons, List.not_mem_nil, or_false] at hm
  intro s hs
  have hbs := hb s hs
  rcases hm with rfl | rfl | rfl | rfl | rfl | rfl | rfl | rfl | rfl | rfl | rfl | rfl
  · have h3 : c.size = 3 := hF3 rfl
    rw [move_eval_F] at he
    cases hres : moveFcw c.size c.U c.L c.D c.R with
    | none => rw [hres] at he; cases he
    | some t =>
      obtain ⟨u, l, d, r⟩ := t
      rw [hres] at he
      injection he with he2
      subst he2
      have hsum := moveFcw_counts hU hL hD hR h3 hres s
      unfold cubeCount at hbs ⊢
      dsimp only
      rw [count_rotCW hF]
      omega
  · rw [move_eval_Fp] at he
    cases hres : moveFccw c.size c.U c.L c.D c.R with
    | none => rw [hres] at he; cases he
    | some t =>
      obtain ⟨u, l, d, r⟩ := t
      rw [hres] at he
      injection he with he2
      subst he2
      have hsum := moveFccw_counts hU hL hD hR hres s
      unfold cubeCount at hbs ⊢
      dsimp only
      rw [count_rotCCW hF]
      omega
  · rw [move_eval_B] at he
    injection he with he2
    subst he2
    unfold cubeCount at hbs ⊢
    dsimp only
    rw [count_rotCW hB]
    exact hbs
  · rw [move_eval_Bp] at he
    injection he with he2
    subst he2
    unfold cubeCount at hbs ⊢
    dsimp only
    rw [count_rotCCW hB]
    exact hbs
  · rw [move_eval_U] at he
    injection he with he2
    subst he2
    unfold cubeCount at hbs ⊢
    dsimp only
    rw [count_rotCW hU]
    exact hbs
  · rw [move_eval_Up] at he
    injection he with he2
    subst he2
    unfold cubeCount at hbs ⊢
    dsimp only
    rw [count_rotCCW hU]
    exact hbs
  · rw [move_eval_D] at he
    injection he with he2
    subst he2
    unfold cubeCount at hbs ⊢
    dsimp only
    rw [count_rotCW hD]
    exact hbs
  · rw [move_eval_Dp] at he
    injection he with he2
    subst he2
    unfold cubeCount at hbs ⊢
    dsimp only
    rw [count_rotCCW hD]
    exact hbs
  · rw [move_eval_L] at he
    injection he with he2
    subst he2
    unfold cubeCount at hbs ⊢
    dsimp only
    rw [count_rotCW hL]
    exact hbs
  · rw [move_eval_Lp] at he
    injection he with he2
    subst he2
    unfold cubeCount at hbs ⊢
    dsimp only
    rw [count_rotCCW hL]
    exact hbs
  · rw [move_eval_R] at he
    injection he with he2
    subst he2
    unfold cubeCount at hbs ⊢
    dsimp only
    rw [count_rotCW hR]
    exact hbs
  · rw [move_eval_Rp] at he
    injection he with he2
    subst he2
    unfold cubeCount at hbs ⊢
    dsimp only
    rw [count_rotCCW hR]
    exact hbs

/-- The solved 3x3 cube after one U move. -/
def uTurned3 : Cube := { solvedCube 3 with U := rotCW 3 (solvedCube 3).U }

/-- Witness for the amended C4: a U move on the balanced solved 3x3 cube
yields a balanced state. -/
theorem legal_move_preserves_balance_witness : balanced uTurned3 :=
  legal_move_preserves_balance (solvedCube 3) "U" uTurned3 (by decide) (by decide)
    (fun _ => rfl) rfl (by decide)

/-- Counterexample to C4 as stated: rowSwapped4 is a size-4 state in which
every color appears exactly 16 times, yet the legal move F yields a state
that is no longer balanced (the front cycle duplicates row U[2] and drops
the old bottom row values). -/
theorem front_move_balance_counterexample :
    balancedB rowSwapped4 = true ∧
    (rowSwapped4.move "F").map balancedB = some false := by decide
